import Mathlib

/-!
Verification development for the Mollusk SVM test harness.

Shallow embedding of the harness core: the result types and `absorb`
(src/result/src/types.rs), the check engine (src/result/src/check.rs),
instruction compilation (src/keys/src/accounts.rs), transaction-account
resolution (src/harness/src/compile_accounts.rs), the execution
orchestrator and the stateful context wrapper (src/harness/src/lib.rs).

External collaborators (the SVM executor, the rent sysvar rule, the
`construct_instructions_data` serializer) are opaque capabilities in the
source and are modelled as function parameters here.  Keys are opaque
identifiers modelled as `Nat`; byte strings are `List Nat`.
-/

namespace MolluskSpec

/-- Account address (Pubkey).  Equality is exact identity. -/
abbrev Key := Nat

/-- Pubkey::default(): the all-zero key. -/
def defaultKey : Key := 0

/-- The distinguished instructions-introspection sysvar id
(solana_instructions_sysvar::ID), an arbitrary fixed key distinct from
`defaultKey`. -/
def INSTRUCTIONS_SYSVAR_ID : Key := 900

/-- The sysvar owner id (solana_sysvar_id::ID). -/
def SYSVAR_OWNER_ID : Key := 901

/-- solana_account::Account. -/
structure Account where
  lamports : Nat
  data : List Nat
  owner : Key
  executable : Bool
  rent_epoch : Nat
deriving DecidableEq

/-- Account::default(): zero lamports, empty data, default owner,
not executable, zero rent epoch. -/
def defaultAccount : Account :=
  { lamports := 0, data := [], owner := defaultKey, executable := false, rent_epoch := 0 }

/-- solana_instruction::AccountMeta. -/
structure AccountMeta where
  pubkey : Key
  is_signer : Bool
  is_writable : Bool
deriving DecidableEq

/-- solana_instruction::Instruction. -/
structure Instruction where
  program_id : Key
  accounts : List AccountMeta
  data : List Nat
deriving DecidableEq

/-- result/src/types.rs: ProgramResult.  Error payloads are opaque codes. -/
inductive ProgramResult where
  | Success : ProgramResult
  | Failure : Nat → ProgramResult
  | UnknownError : Nat → ProgramResult
deriving DecidableEq

/-- ProgramResult::is_ok. -/
def ProgramResult.is_ok : ProgramResult → Bool
  | .Success => true
  | _ => false

/-- ProgramResult::is_err. -/
def ProgramResult.is_err (r : ProgramResult) : Bool := !r.is_ok

/-- From<Result<(), InstructionError>> for ProgramResult.  The raw result
is `none` for Ok and `some code` for Err; the ProgramError-vs-
InstructionError split performed by the external ProgramError::try_from
conversion is collapsed into `Failure`. -/
def progResultOfRaw : Option Nat → ProgramResult
  | none => .Success
  | some e => .Failure e

/-- result/src/types.rs: InstructionResult.  `raw_result` is `none` for
Ok(()) and `some code` for Err(code). -/
structure InstructionResult where
  compute_units_consumed : Nat
  execution_time : Nat
  program_result : ProgramResult
  raw_result : Option Nat
  return_data : List Nat
  resulting_accounts : List (Key × Account)
deriving DecidableEq

/-- impl Default for InstructionResult (types.rs lines 85-100). -/
def defaultInstructionResult : InstructionResult :=
  { compute_units_consumed := 0, execution_time := 0, program_result := .Success,
    raw_result := none, return_data := [], resulting_accounts := [] }

/-- InstructionResult::absorb (types.rs lines 111-124): compute units and
execution time accumulate by sum, every other field is overwritten with
the absorbed result's value. -/
def InstructionResult.absorb (self other : InstructionResult) : InstructionResult :=
  { compute_units_consumed := self.compute_units_consumed + other.compute_units_consumed,
    execution_time := self.execution_time + other.execution_time,
    program_result := other.program_result,
    raw_result := other.raw_result,
    return_data := other.return_data,
    resulting_accounts := other.resulting_accounts }

/-- Outcome of one opaque Executor invocation (the invoke-context call in
process_instruction_inner): the raw invoke result, resources consumed,
return data, and the final transaction-context account lookup
(TransactionContext::find_index_of_account plus the borrow of the final
state, collapsed into one lookup function). -/
structure ExecOutcome where
  invoke_err : Option Nat
  cu : Nat
  time : Nat
  return_data : List Nat
  ctxFind : Key → Option Account

/-- The external Executor capability: instruction index, instruction, and
the account list the step was compiled from, to the outcome. -/
abbrev Executor := Nat → Instruction → List (Key × Account) → ExecOutcome

/-- Mollusk::process_instruction_inner (harness/src/lib.rs lines 711-844),
reconciliation part: on success, re-align the transaction context's final
account states onto the caller's `accounts` ordering, keeping the pre-call
state for any key the context does not know; on failure, return the
pre-call accounts unchanged. -/
def process_instruction_inner (accounts : List (Key × Account)) (o : ExecOutcome) :
    InstructionResult :=
  let resulting :=
    if o.invoke_err = none then
      accounts.map (fun ka => (ka.1, ((o.ctxFind ka.1).getD ka.2)))
    else
      accounts
  { compute_units_consumed := o.cu, execution_time := o.time,
    program_result := progResultOfRaw o.invoke_err, raw_result := o.invoke_err,
    return_data := o.return_data, resulting_accounts := resulting }

/-- Mollusk::process_instruction (harness/src/lib.rs lines 848-876):
compile from the provided accounts and invoke once at index 0. -/
def process_instruction (exec : Executor) (ix : Instruction)
    (accounts : List (Key × Account)) : InstructionResult :=
  process_instruction_inner accounts (exec 0 ix accounts)

/-- Loop body of Mollusk::process_instruction_chain (harness/src/lib.rs
lines 898-926).  Note: every step is compiled from and reconciled against
`accounts`, the caller's original list, exactly as in the source, which
never rebinds `accounts` inside the loop. -/
def chainStep (exec : Executor) (accounts : List (Key × Account)) :
    Nat → List Instruction → InstructionResult → InstructionResult
  | _, [], composite => composite
  | index, ix :: rest, composite =>
    let this_result := process_instruction_inner accounts (exec index ix accounts)
    let composite2 := composite.absorb this_result
    if composite2.program_result.is_err then composite2
    else chainStep exec accounts (index + 1) rest composite2

/-- Mollusk::process_instruction_chain (harness/src/lib.rs lines 888-929). -/
def process_instruction_chain (exec : Executor) (instructions : List Instruction)
    (accounts : List (Key × Account)) : InstructionResult :=
  chainStep exec accounts 0 instructions
    { defaultInstructionResult with resulting_accounts := accounts }

/-- Loop body of Mollusk::process_and_validate_instruction_chain
(harness/src/lib.rs lines 1024-1058).  Unlike `chainStep`, each step
rebinds `accounts` to `composite_result.resulting_accounts` before
compiling and executing.  The per-step `run_checks` call only panics or
prints and never alters the threaded state, so it is elided here. -/
def validateChainStep (exec : Executor) :
    Nat → List Instruction → InstructionResult → InstructionResult
  | _, [], composite => composite
  | index, ix :: rest, composite =>
    let accounts := composite.resulting_accounts
    let this_result := process_instruction_inner accounts (exec index ix accounts)
    let composite2 := composite.absorb this_result
    if composite2.program_result.is_err then composite2
    else validateChainStep exec (index + 1) rest composite2

/-- Mollusk::process_and_validate_instruction_chain (harness/src/lib.rs
lines 1014-1061). -/
def process_and_validate_instruction_chain (exec : Executor)
    (instructions : List Instruction) (accounts : List (Key × Account)) :
    InstructionResult :=
  validateChainStep exec 0 instructions
    { defaultInstructionResult with resulting_accounts := accounts }

/-- error crate: MolluskError (compilation error taxonomy). -/
inductive MolluskError where
  | AccountMissing : Key → MolluskError
  | ProgramIdNotMapped : Key → MolluskError
  | AccountIndexOverflow : Nat → MolluskError
deriving DecidableEq

/-- AccountPrivilege: signer/writable flags for one key. -/
structure AccountPrivilege where
  is_signer : Bool
  is_writable : Bool
deriving DecidableEq

/-- Modelled from the spec: the KeyMap module (crate::keys::keys) is not
present under the source tree; only its callers and tests are.  Per spec
section 4.1 a KeyMap is an ordered list of unique keys with merged
privileges, position being the first-seen insertion index. -/
abbrev KeyMap := List (Key × AccountPrivilege)

/-- Modelled from the spec: privilege merge is boolean OR on each flag
(spec section 3, AccountPrivilege is monotonic under merge). -/
def AccountPrivilege.merge (a b : AccountPrivilege) : AccountPrivilege :=
  { is_signer := a.is_signer || b.is_signer, is_writable := a.is_writable || b.is_writable }

/-- Modelled from the spec: register one key in the KeyMap (spec section
4.1).  A new key is appended at the next position; an existing key has its
privilege merged in place and its position never changes. -/
def KeyMap.addKey (km : KeyMap) (k : Key) (p : AccountPrivilege) : KeyMap :=
  if km.any (fun e => e.1 == k) then
    km.map (fun e => if e.1 == k then (e.1, e.2.merge p) else e)
  else
    km ++ [(k, p)]

/-- Modelled from the spec: KeyMap::add_program registers the program id
with no privileges (spec section 4.1). -/
def KeyMap.add_program (km : KeyMap) (k : Key) : KeyMap :=
  km.addKey k { is_signer := false, is_writable := false }

/-- Modelled from the spec: KeyMap::add_account registers an account
meta's key with its stated privilege (spec section 4.1). -/
def KeyMap.add_account (km : KeyMap) (m : AccountMeta) : KeyMap :=
  km.addKey m.pubkey { is_signer := m.is_signer, is_writable := m.is_writable }

/-- Modelled from the spec: KeyMap compilation iterates instructions in
order, registering each program id and then each account meta (spec
section 4.1). -/
def KeyMap.compile_from_instructions (instructions : List Instruction) : KeyMap :=
  instructions.foldl
    (fun km ix => ix.accounts.foldl (fun km m => km.add_account m) (km.add_program ix.program_id))
    []

/-- Position search: index of the first entry holding the key. -/
def positionAux (k : Key) : List (Key × AccountPrivilege) → Nat → Option Nat
  | [], _ => none
  | e :: rest, i => if e.1 == k then some i else positionAux k rest (i + 1)

/-- Modelled from the spec: KeyMap::position (spec section 4.1 query
surface), the key's first-seen index. -/
def KeyMap.position (km : KeyMap) (k : Key) : Option Nat := positionAux k km 0

/-- keys/src/accounts.rs: CompiledInstructionWithoutData.  Indices are
Nat carrying the u8 invariant enforced by compilation. -/
structure CompiledInstructionWithoutData where
  program_id_index : Nat
  accounts : List Nat
deriving DecidableEq

/-- u8::try_from on a usize index: succeeds exactly for values up to 255. -/
def u8TryFrom (n : Nat) : Option Nat := if n ≤ 255 then some n else none

/-- Meta-index compilation loop of compile_instruction_without_data
(keys/src/accounts.rs lines 30-40): each meta key's position is looked up
(AccountMissing when absent) and converted to u8 (AccountIndexOverflow
when above 255). -/
def compileMetas (km : KeyMap) : List AccountMeta → Except MolluskError (List Nat)
  | [] => .ok []
  | m :: rest =>
    match km.position m.pubkey with
    | none => .error (.AccountMissing m.pubkey)
    | some i =>
      match u8TryFrom i with
      | none => .error (.AccountIndexOverflow i)
      | some i8 =>
        match compileMetas km rest with
        | .error e => .error e
        | .ok idxs => .ok (i8 :: idxs)

/-- compile_instruction_without_data (keys/src/accounts.rs lines 19-46).
The program id's position is resolved first (ProgramIdNotMapped when
absent) and converted to u8, then every account meta is compiled. -/
def compile_instruction_without_data (km : KeyMap) (ix : Instruction) :
    Except MolluskError CompiledInstructionWithoutData :=
  match km.position ix.program_id with
  | none => .error (.ProgramIdNotMapped ix.program_id)
  | some p =>
    match u8TryFrom p with
    | none => .error (.AccountIndexOverflow p)
    | some p8 =>
      match compileMetas km ix.accounts with
      | .error e => .error e
      | .ok idxs => .ok { program_id_index := p8, accounts := idxs }

/-- instructions_sysvar.rs keyed_account (lines 8-38): the synthesized
instructions-introspection account.  The external serialization
construct_instructions_data is abstracted as `cid`. -/
def instructions_sysvar_account (cid : List Instruction → List Nat)
    (instrs : List Instruction) : Account :=
  { lamports := 0, data := cid instrs, owner := SYSVAR_OWNER_ID,
    executable := false, rent_epoch := 0 }

/-- compile_accounts.rs lines 52-54: the defensive executable-marked
program placeholder. -/
def program_stub_account : Account := { defaultAccount with executable := true }

/-- Per-key body of build_transaction_accounts
(harness/src/compile_accounts.rs lines 40-77), with the panics of
or_panic_with expressed as Except.  Branch structure follows the source:
program-id keys first, then the instructions sysvar, then ordinary keys. -/
def resolve_transaction_account (cid : List Instruction → List Nat)
    (accounts : List (Key × Account)) (all_instructions : List Instruction)
    (fallback : Key → Option Account) (key : Key) : Except MolluskError Account :=
  if (all_instructions.map (fun ix => ix.program_id)).contains key then
    match accounts.find? (fun p => p.1 == key) with
    | some p => .ok p.2
    | none =>
      match fallback key with
      | some a => .ok a
      | none => .ok program_stub_account
  else if key == INSTRUCTIONS_SYSVAR_ID then
    match accounts.find? (fun p => p.1 == key) with
    | some p => .ok p.2
    | none =>
      match fallback key with
      | some a => .ok a
      | none => .ok (instructions_sysvar_account cid all_instructions)
  else
    match accounts.find? (fun p => p.1 == key) with
    | some p => .ok p.2
    | none =>
      match fallback key with
      | some a => .ok a
      | none => .error (.AccountMissing key)

/-- build_transaction_accounts (harness/src/compile_accounts.rs lines
32-79): resolve every key of the compiled message in order.  The message
key list produced by the external Message::new is taken as a parameter. -/
def build_transaction_accounts (cid : List Instruction → List Nat)
    (message_keys : List Key) (accounts : List (Key × Account))
    (all_instructions : List Instruction) (fallback : Key → Option Account) :
    List (Key × Except MolluskError Account) :=
  message_keys.map (fun key =>
    (key, resolve_transaction_account cid accounts all_instructions fallback key))

/-- The AccountStore capability, as its point lookup: keys to optional
account state.  The trait's store_account mutation is modelled as a
functional update. -/
abbrev Store := Key → Option Account

/-- AccountStore::store_account as a functional update. -/
def storeAccount (s : Store) (k : Key) (a : Account) : Store :=
  fun q => if q = k then some a else s q

/-- MolluskContext::consume_mollusk_result (harness/src/lib.rs lines
1393-1401): write every resulting account back into the store, but only
when the program result is success. -/
def consume_mollusk_result (s : Store) (r : InstructionResult) : Store :=
  if r.program_result.is_ok then
    r.resulting_accounts.foldl (fun s ka => storeAccount s ka.1 ka.2) s
  else
    s

/-- Environment of a MolluskContext call: the hydration flag, the cached
program and sysvar account lists, the sysvar and program-cache account
synthesizers, and the account store's lookup and default. -/
structure ContextEnv where
  hydrate_store : Bool
  programAccounts : List (Key × Account)
  sysvarAccounts : List (Key × Account)
  sysvarLookup : Key → Option Account
  programLookup : Key → Option Account
  storeGet : Key → Option Account
  storeDefault : Key → Account

/-- Resolution cascade of an unseen meta key (harness/src/lib.rs lines
1375-1385): the store first, then sysvar synthesis, then the program
cache, then the store's default account. -/
def resolveFromStores (env : ContextEnv) (k : Key) : Account :=
  ((env.storeGet k).getD
    ((env.sysvarLookup k).getD
      ((env.programLookup k).getD (env.storeDefault k))))

/-- Meta-key gathering loop of load_accounts_for_instructions
(harness/src/lib.rs lines 1364-1389): each key is processed once (the
`seen` set), the instructions sysvar is skipped, every other unseen key
is resolved through `resolveFromStores` and appended. -/
def metaLoop (env : ContextEnv) :
    List Key → List Key → List (Key × Account) → List (Key × Account)
  | [], _, acc => acc
  | k :: rest, seen, acc =>
    if k ∈ seen then metaLoop env rest seen acc
    else if k = INSTRUCTIONS_SYSVAR_ID then metaLoop env rest (k :: seen) acc
    else metaLoop env rest (k :: seen) (acc ++ [(k, resolveFromStores env k)])

/-- The concatenated meta keys of an instruction list, in order (the keys
the source's nested for_each visits; program ids are not visited). -/
def metaKeys (instructions : List Instruction) : List Key :=
  (instructions.map (fun ix => ix.accounts.map (fun m => m.pubkey))).flatten

/-- MolluskContext::load_accounts_for_instructions (harness/src/lib.rs
lines 1343-1391): hydrated program and sysvar accounts first when
hydration is on, then one entry per unseen meta key. -/
def load_accounts_for_instructions (env : ContextEnv)
    (instructions : List Instruction) : List (Key × Account) :=
  let hydrated :=
    if env.hydrate_store then env.programAccounts ++ env.sysvarAccounts else []
  metaLoop env (metaKeys instructions) [] hydrated

/-- First-occurrence deduplication, relative to an already-seen set. -/
def firstDedupFrom (seen : List Key) : List Key → List Key
  | [] => []
  | k :: rest =>
    if k ∈ seen then firstDedupFrom seen rest
    else k :: firstDedupFrom (k :: seen) rest

/-- First-occurrence deduplication of a key list. -/
def firstDedup (ks : List Key) : List Key := firstDedupFrom [] ks

/-- result/src/config.rs: Config. -/
structure Config where
  panic_on_failure : Bool
  verbose : Bool
deriving DecidableEq

/-- Outcome of evaluating one elementary assertion, or a whole check:
either a fatal failure (the panic of the hard-fail policy) or a pass flag
together with the recorded mismatch messages of the soft-fail policy. -/
abbrev CheckOutcome := Except String (Bool × List String)

/-- Modelled from the spec: the compare macro of result/src/config.rs,
which is absent from the source tree.  On a match it passes; on a
mismatch it panics when panic_on_failure is set and otherwise records the
mismatch and yields false (spec section 4.4). -/
def compareCheck (c : Config) (label : String) (ok : Bool) : CheckOutcome :=
  if ok then .ok (true, [])
  else if c.panic_on_failure then .error label
  else .ok (false, [label])

/-- Modelled from the spec: the throw macro of result/src/config.rs,
which is absent from the source tree.  It panics when panic_on_failure is
set and otherwise records the message and yields false (spec section
4.4). -/
def throwCheck (c : Config) (msg : String) : CheckOutcome :=
  if c.panic_on_failure then .error msg
  else .ok (false, [msg])

/-- Sequencing of check outcomes: the first fatal failure wins, otherwise
pass flags are ANDed and recorded messages concatenated (the `pass &=`
accumulation of run_checks). -/
def accAnd : CheckOutcome → CheckOutcome → CheckOutcome
  | .error e, _ => .error e
  | .ok _, .error e => .error e
  | .ok (p1, l1), .ok (p2, l2) => .ok (p1 && p2, l1 ++ l2)

/-- check.rs: AccountStateCheck. -/
inductive AccountStateCheck where
  | Closed : AccountStateCheck
  | RentExempt : AccountStateCheck
deriving DecidableEq

/-- check.rs: AccountCheck, the optional per-account field assertions. -/
structure AccountCheck where
  pubkey : Key
  check_data : Option (List Nat)
  check_executable : Option Bool
  check_lamports : Option Nat
  check_owner : Option Key
  check_space : Option Nat
  check_state : Option AccountStateCheck
  check_data_slice : Option (Nat × List Nat)

/-- check.rs: CheckType. -/
inductive CheckType where
  | ComputeUnitsConsumed : Nat → CheckType
  | ExecutionTime : Nat → CheckType
  | ProgramResultIs : ProgramResult → CheckType
  | ReturnData : List Nat → CheckType
  | ResultingAccount : AccountCheck → CheckType
  | AllRentExempt : CheckType

/-- Data-slice assertion of run_checks (check.rs lines 262-279): when
offset plus expected length exceeds the data length the assertion fails
with the length-exceeded diagnostic without reading the data; otherwise
the expected bytes are compared against exactly the bytes at positions
offset to offset plus expected length. -/
def dataSliceCheck (c : Config) (offset : Nat) (expected : List Nat)
    (data : List Nat) : CheckOutcome :=
  if offset + expected.length > data.length then
    throwCheck c "account data slice exceeds account data length"
  else
    compareCheck c "account_data_slice" (expected == (data.drop offset).take expected.length)

/-- Evaluation of one Check against an InstructionResult (the match arms
of run_checks, check.rs lines 186-297).  `rent` is the injected
CheckContext rent-exemption predicate as check.rs calls it (lamports and
space). -/
def evalCheck (rent : Nat → Nat → Bool) (r : InstructionResult) (c : Config) :
    CheckType → CheckOutcome
  | .ComputeUnitsConsumed units =>
    compareCheck c "compute_units" (units == r.compute_units_consumed)
  | .ExecutionTime time =>
    compareCheck c "execution_time" (time == r.execution_time)
  | .ProgramResultIs pr =>
    compareCheck c "program_result" (pr == r.program_result)
  | .ReturnData rd =>
    compareCheck c "return_data" (rd == r.return_data)
  | .ResultingAccount ac =>
    match r.resulting_accounts.find? (fun p => p.1 == ac.pubkey) with
    | none => throwCheck c "account not found in resulting accounts"
    | some pa =>
      let acct := pa.2
      accAnd (accAnd (accAnd (accAnd (accAnd (accAnd
        (match ac.check_data with
         | none => .ok (true, [])
         | some d => compareCheck c "account_data" (d == acct.data))
        (match ac.check_executable with
         | none => .ok (true, [])
         | some e => compareCheck c "account_executable" (e == acct.executable)))
        (match ac.check_lamports with
         | none => .ok (true, [])
         | some l => compareCheck c "account_lamports" (l == acct.lamports)))
        (match ac.check_owner with
         | none => .ok (true, [])
         | some o => compareCheck c "account_owner" (o == acct.owner)))
        (match ac.check_space with
         | none => .ok (true, [])
         | some sp => compareCheck c "account_space" (sp == acct.data.length)))
        (match ac.check_state with
         | none => .ok (true, [])
         | some .Closed => compareCheck c "account_closed" (acct == defaultAccount)
         | some .RentExempt =>
           compareCheck c "account_rent_exempt" (rent acct.lamports acct.data.length)))
        (match ac.check_data_slice with
         | none => .ok (true, [])
         | some od => dataSliceCheck c od.1 od.2 acct.data)
  | .AllRentExempt =>
    r.resulting_accounts.foldl
      (fun acc pa =>
        accAnd acc
          (if rent pa.2.lamports pa.2.data.length then .ok (true, [])
           else throwCheck c "account is not rent exempt after execution"))
      (.ok (true, []))

/-- InstructionResult::run_checks (check.rs lines 177-300): every check is
evaluated in order and the pass flags accumulate. -/
def run_checks (rent : Nat → Nat → Bool) (r : InstructionResult)
    (checks : List CheckType) (c : Config) : CheckOutcome :=
  checks.foldl (fun acc chk => accAnd acc (evalCheck rent r c chk)) (.ok (true, []))

/-- Recorded mismatch messages of an outcome; a fatal failure carries its
single message. -/
def failuresOf : CheckOutcome → List String
  | .ok p => p.2
  | .error m => [m]

/-- impl CheckContext for Mollusk (harness/src/lib.rs lines 580-585): the
harness's built-in rent-exemption predicate.  The rent sysvar's
is_exempt is the external `rule`. -/
def Mollusk.is_rent_exempt (rule : Nat → Nat → Bool) (lamports : Nat)
    (space : Nat) (owner : Key) : Bool :=
  (owner == defaultKey && lamports == 0) || rule lamports space

/-- Decidable equality for Except values, used to evaluate compilation
and check outcomes on concrete inputs. -/
instance instDecEqExcept {ε α : Type} [DecidableEq ε] [DecidableEq α] :
    DecidableEq (Except ε α) := fun a b =>
  match a, b with
  | .ok x, .ok y =>
    if h : x = y then isTrue (by rw [h]) else isFalse (fun hh => h (Except.ok.inj hh))
  | .error x, .error y =>
    if h : x = y then isTrue (by rw [h]) else isFalse (fun hh => h (Except.error.inj hh))
  | .ok _, .error _ => isFalse (fun hh => Except.noConfusion hh)
  | .error _, .ok _ => isFalse (fun hh => Except.noConfusion hh)

/-- A system-owned account with the given lamports and no data. -/
def acct (l : Nat) : Account :=
  { lamports := l, data := [], owner := 0, executable := false, rent_epoch := 0 }

/-- A data-free instruction of program 7 with no account metas. -/
def ixNoop : Instruction := { program_id := 7, accounts := [], data := [] }

/-- An executor whose every step succeeds, reports in its return data the
lamports of account 1 as it observed them, and leaves every account it is
given with one more lamport. -/
def execIncr : Executor := fun _ _ accs =>
  { invoke_err := none, cu := 10, time := 1,
    return_data := [(((accs.find? (fun p => p.1 == 1)).map (fun p => p.2.lamports)).getD 0)],
    ctxFind := fun k =>
      (accs.find? (fun p => p.1 == k)).map
        (fun p => { p.2 with lamports := p.2.lamports + 1 }) }

/-- An executor whose step 0 succeeds and sets every account's lamports
to 58, and whose every later step fails with error code 42. -/
def execS1okS2fail : Executor := fun idx _ accs =>
  if idx = 0 then
    { invoke_err := none, cu := 7, time := 3, return_data := [1],
      ctxFind := fun k =>
        (accs.find? (fun p => p.1 == k)).map (fun p => { p.2 with lamports := 58 }) }
  else
    { invoke_err := some 42, cu := 5, time := 2, return_data := [2],
      ctxFind := fun _ => none }

end MolluskSpec

namespace MolluskSpec

/-- Claim C10: process_instruction_chain on an empty instruction slice
performs no execution (the result is independent of the executor) and
returns Success with zero compute units, zero execution time, empty
return data and the provided accounts unchanged, in their original
order. -/
theorem process_instruction_chain_nil (exec : Executor)
    (accounts : List (Key × Account)) :
    process_instruction_chain exec [] accounts =
      { compute_units_consumed := 0, execution_time := 0,
        program_result := .Success, raw_result := none, return_data := [],
        resulting_accounts := accounts } := rfl

/-- Claim C1 (evidence of the code bug): for the chain S1-then-S2 where
S1 succeeds and rewrites account 1 from 100 to 58 lamports and S2 fails
with code 42, process_instruction_chain does sum the compute units (12)
and the execution times (5), does take the last step's program result,
raw result and return data, and does stop at the failing step — but its
resulting accounts are the caller's ORIGINAL accounts (100 lamports), not
the post-S1 state (58 lamports), because the source loop compiles and
reconciles every step against the original `accounts` binding: S2's
failure hands back the untouched originals, discarding S1's committed
state. -/
theorem chain_failure_returns_original_accounts :
    (process_instruction_chain execS1okS2fail [ixNoop, ixNoop]
        [(1, acct 100)]).compute_units_consumed = 12 ∧
    (process_instruction_chain execS1okS2fail [ixNoop, ixNoop]
        [(1, acct 100)]).execution_time = 5 ∧
    (process_instruction_chain execS1okS2fail [ixNoop, ixNoop]
        [(1, acct 100)]).program_result = ProgramResult.Failure 42 ∧
    (process_instruction_chain execS1okS2fail [ixNoop, ixNoop]
        [(1, acct 100)]).raw_result = some 42 ∧
    (process_instruction_chain execS1okS2fail [ixNoop, ixNoop]
        [(1, acct 100)]).return_data = [2] ∧
    (process_instruction_chain execS1okS2fail [ixNoop, ixNoop]
        [(1, acct 100)]).resulting_accounts = [(1, acct 100)] ∧
    (process_instruction_inner [(1, acct 100)]
        (execS1okS2fail 0 ixNoop [(1, acct 100)])).resulting_accounts
      = [(1, acct 58)] ∧
    [((1 : Key), acct 100)] ≠ [((1 : Key), acct 58)] := by
  decide

/-- Claim C2 (evidence of the code bug): with an executor that reports
the lamports of account 1 exactly as observed and then increments them,
the second step of process_instruction_chain still observes the
caller-provided 100 lamports (final return data [100], final state 101),
whereas process_and_validate_instruction_chain threads the post-step
state as the spec requires (second step observes 101, final state 102).
Steps of process_instruction_chain therefore do not execute against the
account states produced by the previous successful step. -/
theorem chain_steps_observe_original_accounts :
    (process_instruction_chain execIncr [ixNoop, ixNoop]
        [(1, acct 100)]).return_data = [100] ∧
    (process_instruction_chain execIncr [ixNoop, ixNoop]
        [(1, acct 100)]).resulting_accounts = [(1, acct 101)] ∧
    (process_and_validate_instruction_chain execIncr [ixNoop, ixNoop]
        [(1, acct 100)]).return_data = [101] ∧
    (process_and_validate_instruction_chain execIncr [ixNoop, ixNoop]
        [(1, acct 100)]).resulting_accounts = [(1, acct 102)] := by
  decide

/-- Claim C9: the harness's built-in rent-exemption predicate returns
true for any account whose owner is the default key and whose lamports
are zero, whatever the rent rule and the space; for every other account
it returns exactly the rent rule's verdict on lamports and space. -/
theorem mollusk_is_rent_exempt_spec (rule : Nat → Nat → Bool)
    (lamports space : Nat) (owner : Key) :
    (owner = defaultKey → lamports = 0 →
      Mollusk.is_rent_exempt rule lamports space owner = true) ∧
    (¬(owner = defaultKey ∧ lamports = 0) →
      Mollusk.is_rent_exempt rule lamports space owner = rule lamports space) := by
  constructor
  · intro ho hl
    subst ho hl
    simp [Mollusk.is_rent_exempt]
  · intro h
    unfold Mollusk.is_rent_exempt
    rcases Decidable.em (owner = defaultKey) with ho | ho
    · rcases Decidable.em (lamports = 0) with hl | hl
      · exact absurd ⟨ho, hl⟩ h
      · subst ho
        simp [hl]
    · simp [ho]

/-- Witness for claim C9's theorem: account owned by the default key with
zero lamports is exempt even under an always-false rent rule, and a
non-default-owned account is judged exactly by the rule. -/
theorem mollusk_is_rent_exempt_spec_witness :
    Mollusk.is_rent_exempt (fun _ _ => false) 0 10 defaultKey = true ∧
    Mollusk.is_rent_exempt (fun _ _ => false) 0 10 5 = false := by
  refine ⟨(mollusk_is_rent_exempt_spec (fun _ _ => false) 0 10 defaultKey).1 rfl rfl, ?_⟩
  have h := (mollusk_is_rent_exempt_spec (fun _ _ => false) 0 10 5).2
    (by intro hc; exact absurd hc.1 (by decide))
  exact h

/-- Claim C4: per-key account resolution is the waterfall provided first
(first occurrence wins), then the fallback source, then a synthesized
stub for stub-qualifying keys (a program id of one of the instructions,
or the instructions-introspection sysvar), and otherwise fails with
AccountMissing naming the key; additionally, a key provided at the head
resolves to that head account whatever duplicates follow. -/
theorem resolve_transaction_account_waterfall (cid : List Instruction → List Nat)
    (accounts : List (Key × Account)) (instrs : List Instruction)
    (fallback : Key → Option Account) (key : Key) :
    (resolve_transaction_account cid accounts instrs fallback key =
      match accounts.find? (fun p => p.1 == key) with
      | some p => .ok p.2
      | none =>
        match fallback key with
        | some a => .ok a
        | none =>
          if (instrs.map (fun ix => ix.program_id)).contains key then
            .ok program_stub_account
          else if key == INSTRUCTIONS_SYSVAR_ID then
            .ok (instructions_sysvar_account cid instrs)
          else
            .error (.AccountMissing key)) ∧
    (∀ a tail, resolve_transaction_account cid ((key, a) :: tail) instrs fallback key
      = .ok a) := by
  constructor
  · unfold resolve_transaction_account
    by_cases h1 : (instrs.map (fun ix => ix.program_id)).contains key = true
    · cases hf : accounts.find? (fun p => p.1 == key) <;>
        cases hb : fallback key <;> simp [h1, hf, hb]
    · by_cases h2 : (key == INSTRUCTIONS_SYSVAR_ID) = true
      · cases hf : accounts.find? (fun p => p.1 == key) <;>
          cases hb : fallback key <;> simp [h1, h2, hf, hb]
      · cases hf : accounts.find? (fun p => p.1 == key) <;>
          cases hb : fallback key <;> simp [h1, h2, hf, hb]
  · intro a tail
    unfold resolve_transaction_account
    by_cases h1 : (instrs.map (fun ix => ix.program_id)).contains key = true <;>
      by_cases h2 : (key == INSTRUCTIONS_SYSVAR_ID) = true <;>
        simp [h1, h2, List.find?]

/-- Claim C5: the reconciled resulting accounts of one execution carry
exactly the caller's keys in the caller's order, one entry per provided
account; an account whose key the final transaction context does not
know keeps its pre-call state; and on a failed invocation every account
keeps its pre-call state. -/
theorem process_instruction_inner_realign (accounts : List (Key × Account))
    (o : ExecOutcome) :
    ((process_instruction_inner accounts o).resulting_accounts.map Prod.fst
        = accounts.map Prod.fst) ∧
    ((process_instruction_inner accounts o).resulting_accounts.length
        = accounts.length) ∧
    (∀ (i : Nat) (k : Key) (a : Account), accounts[i]? = some (k, a) →
        o.ctxFind k = none →
        (process_instruction_inner accounts o).resulting_accounts[i]? = some (k, a)) ∧
    (o.invoke_err ≠ none →
        (process_instruction_inner accounts o).resulting_accounts = accounts) := by
  unfold process_instruction_inner
  cases h : o.invoke_err with
  | none =>
    refine ⟨?_, ?_, ?_, ?_⟩
    · simp [h, List.map_map, Function.comp]
    · simp [h]
    · intro i k a hi hfind
      simp [h, List.getElem?_map, hi, hfind]
    · intro hne
      exact absurd rfl hne
  | some e =>
    refine ⟨?_, ?_, ?_, ?_⟩
    · simp [h]
    · simp [h]
    · intro i k a hi _
      simp [h, hi]
    · intro _
      simp [h]

/-- A successful outcome touching only key 1, used as concrete input. -/
def c5outcome : ExecOutcome :=
  { invoke_err := none, cu := 0, time := 0, return_data := [],
    ctxFind := fun k => if k = 1 then some (acct 55) else none }

/-- A failed outcome, used as concrete input. -/
def c5errOutcome : ExecOutcome :=
  { invoke_err := some 9, cu := 0, time := 0, return_data := [],
    ctxFind := fun _ => none }

/-- Witness for claim C5's theorem: on two provided accounts of which
the execution touched only the first, the keys and order are preserved,
the untouched second account keeps its state, and a failed invocation
keeps both. -/
theorem process_instruction_inner_realign_witness :
    (process_instruction_inner [(1, acct 100), (2, acct 200)]
        c5outcome).resulting_accounts.map Prod.fst = [1, 2] ∧
    (process_instruction_inner [(1, acct 100), (2, acct 200)]
        c5outcome).resulting_accounts[1]? = some (2, acct 200) ∧
    (process_instruction_inner [(1, acct 100), (2, acct 200)]
        c5errOutcome).resulting_accounts = [(1, acct 100), (2, acct 200)] := by
  have h1 := process_instruction_inner_realign [(1, acct 100), (2, acct 200)] c5outcome
  have h2 := process_instruction_inner_realign [(1, acct 100), (2, acct 200)] c5errOutcome
  exact ⟨h1.1.trans (by decide),
    h1.2.2.1 1 2 (acct 200) (by decide) (by decide),
    h2.2.2.2 (by decide)⟩

/-- Claim C8: when offset plus expected length exceeds the account data
length, the data-slice assertion fails with the length-exceeded
diagnostic (one recorded failure, no data access); otherwise it compares
the expected bytes against exactly the bytes at positions offset to
offset plus expected length and passes exactly when they are equal. -/
theorem data_slice_check_spec (c : Config) (offset : Nat)
    (expected data : List Nat) (h : c.panic_on_failure = false) :
    (data.length < offset + expected.length →
      dataSliceCheck c offset expected data =
        .ok (false, ["account data slice exceeds account data length"])) ∧
    (offset + expected.length ≤ data.length →
      (dataSliceCheck c offset expected data = .ok (true, []) ↔
        expected = (data.drop offset).take expected.length)) ∧
    (offset + expected.length ≤ data.length →
      expected ≠ (data.drop offset).take expected.length →
      dataSliceCheck c offset expected data = .ok (false, ["account_data_slice"])) := by
  refine ⟨?_, ?_, ?_⟩
  · intro hlen
    simp [dataSliceCheck, throwCheck, hlen, h]
  · intro hle
    have hnot : ¬(data.length < offset + expected.length) := Nat.not_lt.mpr hle
    cases hbe : (expected == (data.drop offset).take expected.length) with
    | true =>
      simp [dataSliceCheck, compareCheck, hnot, hbe]
      exact eq_of_beq hbe
    | false =>
      simp [dataSliceCheck, compareCheck, hnot, hbe, h]
      exact ne_of_beq_false hbe
  · intro hle hne
    have hnot : ¬(data.length < offset + expected.length) := Nat.not_lt.mpr hle
    have hbe : (expected == (data.drop offset).take expected.length) = false :=
      beq_eq_false_iff_ne.mpr hne
    simp [dataSliceCheck, compareCheck, hnot, hbe, h]

/-- Witness for claim C8's theorem: slice offset 2 expecting bytes 9, 9
passes against data 1, 2, 9, 9, 5 and fails with the length-exceeded
diagnostic against the too-short data 1, 2. -/
theorem data_slice_check_spec_witness :
    dataSliceCheck { panic_on_failure := false, verbose := false } 2 [9, 9]
        [1, 2, 9, 9, 5] = .ok (true, []) ∧
    dataSliceCheck { panic_on_failure := false, verbose := false } 2 [9, 9]
        [1, 2] = .ok (false, ["account data slice exceeds account data length"]) := by
  constructor
  · exact ((data_slice_check_spec { panic_on_failure := false, verbose := false }
      2 [9, 9] [1, 2, 9, 9, 5] rfl).2.1 (by decide)).mpr (by decide)
  · exact (data_slice_check_spec { panic_on_failure := false, verbose := false }
      2 [9, 9] [1, 2] rfl).1 (by decide)

end MolluskSpec

namespace MolluskSpec

/-- A key map holding exactly 256 distinct keys, at positions 0 to 255. -/
def km256 : KeyMap :=
  (List.range 256).map (fun i => (i, { is_signer := false, is_writable := false }))

/-- A key map holding 257 distinct keys, at positions 0 to 256. -/
def km257 : KeyMap :=
  (List.range 257).map (fun i => (i, { is_signer := false, is_writable := false }))

/-- An instruction over `km256` referencing the extreme positions: program
id at position 0 and one account meta at position 255. -/
def ix256 : Instruction :=
  { program_id := 0,
    accounts := [{ pubkey := 255, is_signer := false, is_writable := false }],
    data := [] }

/-- An instruction whose program id sits at position 256 of `km257`. -/
def ix257 : Instruction := { program_id := 256, accounts := [], data := [] }

/-- A found position is always below the starting index plus the searched
list's length. -/
theorem positionAux_lt (k : Key) :
    ∀ (l : List (Key × AccountPrivilege)) (i p : Nat),
      positionAux k l i = some p → p < i + l.length := by
  intro l
  induction l with
  | nil => intro i p h; exact absurd h (by simp [positionAux])
  | cons e rest ih =>
    intro i p h
    by_cases he : (e.1 == k) = true
    · simp [positionAux, he] at h
      simp only [List.length_cons]
      omega
    · simp [positionAux, he] at h
      have := ih (i + 1) p h
      simp only [List.length_cons]
      omega

/-- A key's key-map position is always below the key map's size. -/
theorem position_lt (km : KeyMap) (k : Key) (p : Nat)
    (h : km.position k = some p) : p < km.length :=
  by simpa using positionAux_lt k km 0 p h

/-- Meta compilation succeeds whenever the key map holds at most 256
entries and every meta key is mapped. -/
theorem compileMetas_ok (km : KeyMap) (hlen : km.length ≤ 256) :
    ∀ metas : List AccountMeta,
      (∀ m ∈ metas, (km.position m.pubkey).isSome = true) →
      ∃ idxs, compileMetas km metas = .ok idxs := by
  intro metas
  induction metas with
  | nil => intro _; exact ⟨[], rfl⟩
  | cons m rest ih =>
    intro hall
    obtain ⟨i, hi⟩ := Option.isSome_iff_exists.mp (hall m (by simp))
    have hbound : i ≤ 255 := by
      have := position_lt km m.pubkey i hi
      omega
    obtain ⟨idxs, hrest⟩ := ih (fun x hx => hall x (by simp [hx]))
    exact ⟨i :: idxs, by simp [compileMetas, hi, u8TryFrom, hbound, hrest]⟩

set_option maxRecDepth 8000 in
/-- Claim C3 (counterexample): a key map holding 256 distinct keys does
NOT make compilation fail with AccountIndexOverflow — positions 0 to 255
all fit in a byte, and compiling an instruction over such a map, even one
referencing position 255, succeeds. -/
theorem compile_with_256_keys_succeeds :
    km256.length = 256 ∧ (km256.map Prod.fst).Nodup ∧
    compile_instruction_without_data km256 ix256 =
      .ok { program_id_index := 0, accounts := [255] } := by
  refine ⟨by decide, by decide, by decide⟩

/-- Claim C3 (amended): compiling an instruction whose program id is
absent from the key map fails with ProgramIdNotMapped; compiling fails
with AccountIndexOverflow when the program id's key-map position is 256
or more — first possible when the map holds at least 257 distinct keys;
and whenever the key map holds at most 256 distinct keys and every
referenced key is mapped, compilation succeeds. -/
theorem compile_instruction_without_data_boundary (km : KeyMap) (ix : Instruction) :
    (km.position ix.program_id = none →
      compile_instruction_without_data km ix =
        .error (.ProgramIdNotMapped ix.program_id)) ∧
    (∀ p, km.position ix.program_id = some p → 256 ≤ p →
      compile_instruction_without_data km ix = .error (.AccountIndexOverflow p)) ∧
    (km.length ≤ 256 →
      (km.position ix.program_id).isSome = true →
      (∀ m ∈ ix.accounts, (km.position m.pubkey).isSome = true) →
      ∃ c, compile_instruction_without_data km ix = .ok c) := by
  refine ⟨?_, ?_, ?_⟩
  · intro h
    simp [compile_instruction_without_data, h]
  · intro p hp hge
    have : ¬(p ≤ 255) := by omega
    simp [compile_instruction_without_data, hp, u8TryFrom, this]
  · intro hlen hsome hall
    obtain ⟨p, hp⟩ := Option.isSome_iff_exists.mp hsome
    have hbound : p ≤ 255 := by
      have := position_lt km ix.program_id p hp
      omega
    obtain ⟨idxs, hm⟩ := compileMetas_ok km hlen ix.accounts hall
    exact ⟨{ program_id_index := p, accounts := idxs },
      by simp [compile_instruction_without_data, hp, u8TryFrom, hbound, hm]⟩

set_option maxRecDepth 8000 in
/-- Witness for claim C3's amended theorem: the empty key map rejects
program id 7 as not mapped, the 257-key map overflows at position 256,
and the 256-key map compiles successfully. -/
theorem compile_boundary_witness :
    compile_instruction_without_data [] ixNoop =
      .error (.ProgramIdNotMapped 7) ∧
    compile_instruction_without_data km257 ix257 =
      .error (.AccountIndexOverflow 256) ∧
    ∃ c, compile_instruction_without_data km256 ix256 = .ok c := by
  refine ⟨(compile_instruction_without_data_boundary [] ixNoop).1 (by decide),
    (compile_instruction_without_data_boundary km257 ix257).2.1 256 (by decide) (by decide),
    (compile_instruction_without_data_boundary km256 ix256).2.2 (by decide) (by decide)
      (by decide)⟩

/-- The gathering loop visits each unseen key once: it equals
first-occurrence deduplication (relative to the seen set), with the
instructions sysvar dropped, resolved through the store cascade. -/
theorem metaLoop_spec (env : ContextEnv) :
    ∀ (ks seen : List Key) (acc : List (Key × Account)),
      metaLoop env ks seen acc =
        acc ++ ((firstDedupFrom seen ks).filter
            (fun k => !(k == INSTRUCTIONS_SYSVAR_ID))).map
          (fun k => (k, resolveFromStores env k)) := by
  intro ks
  induction ks with
  | nil =>
    intro seen acc
    simp [metaLoop, firstDedupFrom]
  | cons k rest ih =>
    intro seen acc
    by_cases hmem : k ∈ seen
    · simp [metaLoop, firstDedupFrom, hmem, ih]
    · by_cases hs : k = INSTRUCTIONS_SYSVAR_ID
      · subst hs
        simp [metaLoop, firstDedupFrom, hmem, ih]
      · have hbe : (k == INSTRUCTIONS_SYSVAR_ID) = false := beq_eq_false_iff_ne.mpr hs
        simp [metaLoop, firstDedupFrom, hmem, hs, hbe, ih]

/-- First-occurrence deduplication yields pairwise-distinct keys, none of
them already seen. -/
theorem firstDedupFrom_spec :
    ∀ (ks seen : List Key), (firstDedupFrom seen ks).Nodup ∧
      ∀ k ∈ firstDedupFrom seen ks, k ∉ seen := by
  intro ks
  induction ks with
  | nil =>
    intro seen
    simp [firstDedupFrom]
  | cons k rest ih =>
    intro seen
    by_cases hmem : k ∈ seen
    · simpa [firstDedupFrom, hmem] using ih seen
    · obtain ⟨hnd, hnin⟩ := ih (k :: seen)
      refine ⟨?_, ?_⟩
      · rw [firstDedupFrom, if_neg hmem, List.nodup_cons]
        exact ⟨fun hk => (hnin k hk) (by simp), hnd⟩
      · intro x hx
        rw [firstDedupFrom, if_neg hmem, List.mem_cons] at hx
        rcases hx with h | h
        · subst h
          exact hmem
        · intro hxs
          exact (hnin x h) (by simp [hxs])

/-- Looking up a key after folding the store writes equals the last
written state for that key, or the original store when the key was never
written. -/
theorem foldl_store_lookup :
    ∀ (l : List (Key × Account)) (s : Store) (k : Key),
      (l.foldl (fun s ka => storeAccount s ka.1 ka.2) s) k =
        (match l.reverse.find? (fun q => q.1 == k) with
         | some p => some p.2
         | none => s k) := by
  intro l
  induction l with
  | nil =>
    intro s k
    simp
  | cons ka rest ih =>
    intro s k
    have step : (ka :: rest).foldl (fun s ka => storeAccount s ka.1 ka.2) s
        = rest.foldl (fun s ka => storeAccount s ka.1 ka.2) (storeAccount s ka.1 ka.2) := rfl
    rw [step, ih]
    rw [show (ka :: rest).reverse = rest.reverse ++ [ka] from by simp]
    rw [List.find?_append]
    cases hf : rest.reverse.find? (fun q => q.1 == k) with
    | some p => simp [Option.or]
    | none =>
      by_cases heq : k = ka.1
      · subst heq
        simp [Option.or, storeAccount, List.find?]
      · have hbe : (ka.1 == k) = false := beq_eq_false_iff_ne.mpr (Ne.symm heq)
        simp [Option.or, storeAccount, List.find?, hbe, heq]

/-- Claim C6: the account gathering of the stateful wrapper consults the
store once per distinct meta key (the loaded list is the hydrated prefix
followed by the first-occurrence-deduplicated meta keys, which are
pairwise distinct, minus the instructions sysvar); and the store
write-back happens exactly on success — a failed execution leaves every
store entry unchanged, while a successful one overwrites exactly the
resulting accounts' keys with their final states. -/
theorem context_store_discipline (env : ContextEnv)
    (instructions : List Instruction) (s : Store) (r : InstructionResult) :
    (load_accounts_for_instructions env instructions =
      (if env.hydrate_store then env.programAccounts ++ env.sysvarAccounts else []) ++
      ((firstDedup (metaKeys instructions)).filter
          (fun k => !(k == INSTRUCTIONS_SYSVAR_ID))).map
        (fun k => (k, resolveFromStores env k))) ∧
    (firstDedup (metaKeys instructions)).Nodup ∧
    (r.program_result.is_ok = false →
      ∀ k, consume_mollusk_result s r k = s k) ∧
    (r.program_result.is_ok = true →
      ∀ k, k ∉ r.resulting_accounts.map Prod.fst →
        consume_mollusk_result s r k = s k) ∧
    (r.program_result.is_ok = true →
      ∀ (k : Key) (p : Key × Account),
        r.resulting_accounts.reverse.find? (fun q => q.1 == k) = some p →
        consume_mollusk_result s r k = some p.2) := by
  refine ⟨?_, ?_, ?_, ?_, ?_⟩
  · simp only [load_accounts_for_instructions]
    rw [metaLoop_spec]
    rfl
  · exact (firstDedupFrom_spec (metaKeys instructions) []).1
  · intro hok k
    simp [consume_mollusk_result, hok]
  · intro hok k hnot
    simp only [consume_mollusk_result, hok, if_pos]
    rw [foldl_store_lookup]
    have hnone : r.resulting_accounts.reverse.find? (fun q => q.1 == k) = none := by
      rw [List.find?_eq_none]
      intro x hx
      simp only [beq_iff_eq]
      intro hxk
      apply hnot
      rw [List.mem_map]
      exact ⟨x, List.mem_reverse.mp hx, hxk⟩
    simp [hnone]
  · intro hok k p hfind
    simp only [consume_mollusk_result, hok, if_pos]
    rw [foldl_store_lookup, hfind]

/-- A store holding only key 1, used as concrete input. -/
def c6store : Store := fun k => if k = 1 then some (acct 1) else none

/-- A minimal context environment, used as concrete input. -/
def c6env : ContextEnv :=
  { hydrate_store := false, programAccounts := [], sysvarAccounts := [],
    sysvarLookup := fun _ => none, programLookup := fun _ => none,
    storeGet := fun _ => none, storeDefault := fun _ => defaultAccount }

/-- A successful result whose only resulting account is key 2. -/
def c6okResult : InstructionResult :=
  { defaultInstructionResult with resulting_accounts := [(2, acct 5)] }

/-- A failed result whose only resulting account is key 2. -/
def c6errResult : InstructionResult :=
  { defaultInstructionResult with
    program_result := ProgramResult.Failure 1,
    raw_result := some 1, resulting_accounts := [(2, acct 5)] }

/-- Witness for claim C6's theorem: a failed execution writes nothing
back (key 2 stays absent), a successful one leaves untouched keys alone
(key 1 keeps its stored state) and persists its resulting accounts
(key 2 becomes the final state). -/
theorem context_store_discipline_witness :
    consume_mollusk_result c6store c6errResult 2 = none ∧
    consume_mollusk_result c6store c6okResult 1 = some (acct 1) ∧
    consume_mollusk_result c6store c6okResult 2 = some (acct 5) := by
  have h1 := context_store_discipline c6env [] c6store c6errResult
  have h2 := context_store_discipline c6env [] c6store c6okResult
  refine ⟨(h1.2.2.1 (by decide) 2).trans (by decide),
    (h2.2.2.2.1 (by decide) 1 (by decide)).trans (by decide),
    h2.2.2.2.2 (by decide) 2 (2, acct 5) (by decide)⟩

/-- Emptiness of an appended list is the conjunction of the parts. -/
theorem listIsEmpty_append (l1 l2 : List String) :
    (l1 ++ l2).isEmpty = (l1.isEmpty && l2.isEmpty) := by
  cases l1 <;> simp

/-- In soft-fail mode a comparison yields its recorded mismatches with
the pass flag being their emptiness. -/
theorem compareCheck_soft (c : Config) (h : c.panic_on_failure = false)
    (label : String) (ok : Bool) :
    ∃ l, compareCheck c label ok = .ok (l.isEmpty, l) := by
  cases ok
  · exact ⟨[label], by simp [compareCheck, h]⟩
  · exact ⟨[], by simp [compareCheck]⟩

/-- In soft-fail mode a thrown mismatch yields one recorded message and a
false pass flag. -/
theorem throwCheck_soft (c : Config) (h : c.panic_on_failure = false)
    (msg : String) : ∃ l, throwCheck c msg = .ok (l.isEmpty, l) :=
  ⟨[msg], by simp [throwCheck, h]⟩

/-- Sequencing two soft outcomes yields a soft outcome whose messages
concatenate. -/
theorem accAnd_soft {a b : CheckOutcome} :
    (∃ l, a = .ok (l.isEmpty, l)) → (∃ l, b = .ok (l.isEmpty, l)) →
    ∃ l, accAnd a b = .ok (l.isEmpty, l) := by
  rintro ⟨l1, h1⟩ ⟨l2, h2⟩
  refine ⟨l1 ++ l2, ?_⟩
  rw [h1, h2]
  simp [accAnd, listIsEmpty_append]

/-- Folding soft outcomes with the pass accumulator concatenates every
element's recorded messages, none skipped. -/
theorem foldl_accAnd_soft {α : Type} (f : α → CheckOutcome) :
    ∀ xs : List α, (∀ x ∈ xs, ∃ l, f x = .ok (l.isEmpty, l)) →
    ∀ a : List String,
      xs.foldl (fun acc x => accAnd acc (f x)) (.ok (a.isEmpty, a)) =
        .ok ((a ++ (xs.map (fun x => failuresOf (f x))).flatten).isEmpty,
             a ++ (xs.map (fun x => failuresOf (f x))).flatten) := by
  intro xs
  induction xs with
  | nil =>
    intro _ a
    simp
  | cons x rest ih =>
    intro hf a
    obtain ⟨l, hl⟩ := hf x (by simp)
    have hfl : failuresOf (f x) = l := by
      rw [hl]
      rfl
    have hstep : accAnd (.ok (a.isEmpty, a)) (f x) = .ok ((a ++ l).isEmpty, a ++ l) := by
      rw [hl]
      simp [accAnd, listIsEmpty_append]
    simp only [List.foldl_cons, hstep]
    rw [ih (fun y hy => hf y (by simp [hy])) (a ++ l)]
    simp [hfl, List.append_assoc]

/-- In soft-fail mode the data-slice assertion records its mismatches
with the pass flag being their emptiness. -/
theorem dataSliceCheck_soft (c : Config) (h : c.panic_on_failure = false)
    (off : Nat) (expected data : List Nat) :
    ∃ l, dataSliceCheck c off expected data = .ok (l.isEmpty, l) := by
  unfold dataSliceCheck
  by_cases hlen : off + expected.length > data.length
  · rw [if_pos hlen]
    exact throwCheck_soft c h _
  · rw [if_neg hlen]
    exact compareCheck_soft c h _ _

/-- In soft-fail mode every check evaluates to a pass flag that is the
emptiness of its recorded mismatch messages — never to a fatal failure. -/
theorem evalCheck_soft_shape (rent : Nat → Nat → Bool) (r : InstructionResult)
    (c : Config) (h : c.panic_on_failure = false) (chk : CheckType) :
    ∃ l, evalCheck rent r c chk = .ok (l.isEmpty, l) := by
  cases chk with
  | ComputeUnitsConsumed u => exact compareCheck_soft c h _ _
  | ExecutionTime t => exact compareCheck_soft c h _ _
  | ProgramResultIs pr => exact compareCheck_soft c h _ _
  | ReturnData rd => exact compareCheck_soft c h _ _
  | ResultingAccount ac =>
    simp only [evalCheck]
    cases hf : r.resulting_accounts.find? (fun p => p.1 == ac.pubkey) with
    | none => exact throwCheck_soft c h _
    | some pa =>
      refine accAnd_soft (accAnd_soft (accAnd_soft (accAnd_soft (accAnd_soft
        (accAnd_soft ?_ ?_) ?_) ?_) ?_) ?_) ?_
      · cases ac.check_data with
        | none => exact ⟨[], rfl⟩
        | some d => exact compareCheck_soft c h _ _
      · cases ac.check_executable with
        | none => exact ⟨[], rfl⟩
        | some e => exact compareCheck_soft c h _ _
      · cases ac.check_lamports with
        | none => exact ⟨[], rfl⟩
        | some l => exact compareCheck_soft c h _ _
      · cases ac.check_owner with
        | none => exact ⟨[], rfl⟩
        | some o => exact compareCheck_soft c h _ _
      · cases ac.check_space with
        | none => exact ⟨[], rfl⟩
        | some sp => exact compareCheck_soft c h _ _
      · cases ac.check_state with
        | none => exact ⟨[], rfl⟩
        | some st =>
          cases st with
          | Closed => exact compareCheck_soft c h _ _
          | RentExempt => exact compareCheck_soft c h _ _
      · cases ac.check_data_slice with
        | none => exact ⟨[], rfl⟩
        | some od => exact dataSliceCheck_soft c h od.1 od.2 pa.2.data
  | AllRentExempt =>
    simp only [evalCheck]
    have hsoft : ∀ pa ∈ r.resulting_accounts,
        ∃ l, (if rent pa.2.lamports pa.2.data.length then (.ok (true, []) : CheckOutcome)
              else throwCheck c "account is not rent exempt after execution")
          = .ok (l.isEmpty, l) := by
      intro pa _
      by_cases hr : rent pa.2.lamports pa.2.data.length
      · exact ⟨[], by simp [hr]⟩
      · rw [if_neg hr]
        exact throwCheck_soft c h _
    have := foldl_accAnd_soft
      (fun pa => if rent pa.2.lamports pa.2.data.length then (.ok (true, []) : CheckOutcome)
        else throwCheck c "account is not rent exempt after execution")
      r.resulting_accounts hsoft []
    exact ⟨_, this⟩

/-- Claim C7: with panic_on_failure disabled, run_checks evaluates every
check — the recorded failures are the concatenation, over ALL checks in
order, of each check's failure messages — and returns a pass flag that is
false exactly when at least one check failed; a per-account check whose
key is absent from the resulting accounts records a failure (it is a
failed check, not an abort). -/
theorem run_checks_soft (rent : Nat → Nat → Bool) (r : InstructionResult)
    (checks : List CheckType) (c : Config) (h : c.panic_on_failure = false) :
    (run_checks rent r checks c =
      .ok (((checks.map (fun chk => failuresOf (evalCheck rent r c chk))).flatten).isEmpty,
           (checks.map (fun chk => failuresOf (evalCheck rent r c chk))).flatten)) ∧
    (∀ ac : AccountCheck,
      r.resulting_accounts.find? (fun p => p.1 == ac.pubkey) = none →
      failuresOf (evalCheck rent r c (CheckType.ResultingAccount ac)) ≠ []) := by
  constructor
  · have := foldl_accAnd_soft (fun chk => evalCheck rent r c chk) checks
      (fun chk _ => evalCheck_soft_shape rent r c h chk) []
    simpa [run_checks] using this
  · intro ac hf
    simp [evalCheck, hf, throwCheck, failuresOf, h]

/-- An account check on key 3 with no field assertions, used as concrete
input. -/
def c7missingAc : AccountCheck :=
  { pubkey := 3, check_data := none, check_executable := none,
    check_lamports := none, check_owner := none, check_space := none,
    check_state := none, check_data_slice := none }

/-- Three independently failing checks against the default result, used
as concrete input. -/
def c7checks : List CheckType :=
  [.ComputeUnitsConsumed 5, .ReturnData [1], .ResultingAccount c7missingAc]

/-- Witness for claim C7's theorem: all three failing checks are reported
individually and the overall verdict is false; the missing-account check
contributes its own failure. -/
theorem run_checks_soft_witness :
    run_checks (fun _ _ => true) defaultInstructionResult c7checks
        { panic_on_failure := false, verbose := false } =
      .ok (false, ["compute_units", "return_data",
        "account not found in resulting accounts"]) ∧
    failuresOf (evalCheck (fun _ _ => true) defaultInstructionResult
        { panic_on_failure := false, verbose := false }
        (CheckType.ResultingAccount c7missingAc)) ≠ [] := by
  have h := run_checks_soft (fun _ _ => true) defaultInstructionResult c7checks
    { panic_on_failure := false, verbose := false } rfl
  exact ⟨h.1.trans (by decide), h.2 c7missingAc (by decide)⟩

end MolluskSpec
